import Mathlib

/-!
Verification development for the crawling subsystem of a music-catalog
scraper (request router with dedup, cached rate-limited HTTP client,
per-entity scraping protocols, background worker loop).

All definitions are shallow embeddings of the Rust source:
  * `Request`, `RouterState`, `send` — `src/background/mod.rs` (`Thread::send`)
  * `WebKey`, `WebState`, `clientFetch` — `src/background/web/client.rs`
  * `checkDelay`, `callTimesFrom` — `Client::check_delay` / `get_from_server`
  * `mkDetails`, `collectLoop`, `scrapeRelease`, `scrapeArtist`, `scrapeFan`
    — `src/background/scraper/scraper.rs`
  * `wireRelease` / `handleRelease` etc. — `handle_request` in
    `src/background/mod.rs` / `src/background/scraper/thread.rs`
  * `bgRun` — `Background::run` in `src/background/mod.rs`
External library behaviour (the `url` crate's join, `jiff`'s day rounding
and generic ISO-8601 duration parsing, the real network) is abstracted as
function parameters; machine counters are modelled as `Nat` (the program
only ever increments them, far from overflow relevance, and the claims are
about relative counts).
-/

namespace BcScraper

/-- A scrape request: entity kind plus URL, structural equality/hash
(`src/background/mod.rs`, enum `Request`). -/
inductive Request where
  | artist (url : String)
  | release (url : String)
  | user (url : String)
deriving DecidableEq, Repr

/-- The router-facing state of `Thread` (`src/background/mod.rs`): the
`done` seen-set, the two statistics counters touched by `send`, and the
unbounded input queue contents (what has been forwarded to the worker). -/
structure RouterState where
  done : List Request
  itemsQueued : Nat
  itemsDuplicate : Nat
  queue : List Request
deriving DecidableEq, Repr

/-- `Thread::send` (`src/background/mod.rs` lines 77-84): insert into the
seen-set; if newly inserted, bump `items_queued` and push onto the input
queue, otherwise bump `items_duplicate` and drop the request. -/
def send (s : RouterState) (r : Request) : RouterState :=
  if r ∈ s.done then
    { s with itemsDuplicate := s.itemsDuplicate + 1 }
  else
    { s with done := r :: s.done
             itemsQueued := s.itemsQueued + 1
             queue := s.queue ++ [r] }

/-- Fold a sequence of submissions through `send` from a given state. -/
def submitAllFrom (s : RouterState) (reqs : List Request) : RouterState :=
  reqs.foldl send s

/-- The state `Thread::spawn` starts from: empty seen-set, zero counters,
empty queue. -/
def initRouter : RouterState := ⟨[], 0, 0, []⟩

/-- Run a whole submission sequence from the initial state. -/
def submitAll (reqs : List Request) : RouterState :=
  submitAllFrom initRouter reqs

theorem submitAllFrom_cons (s : RouterState) (q : Request) (rest : List Request) :
    submitAllFrom s (q :: rest) = submitAllFrom (send s q) rest := rfl

theorem send_done_mono (s : RouterState) (q r : Request) (h : r ∈ s.done) :
    r ∈ (send s q).done := by
  unfold send
  split
  · exact h
  · exact List.mem_cons_of_mem _ h

theorem submitAllFrom_done_mono (reqs : List Request) (s : RouterState)
    (r : Request) (h : r ∈ s.done) : r ∈ (submitAllFrom s reqs).done := by
  induction reqs generalizing s with
  | nil => exact h
  | cons q rest ih => exact ih (send s q) (send_done_mono s q r h)

theorem mem_done_submitAllFrom (reqs : List Request) (s : RouterState)
    (r : Request) :
    r ∈ (submitAllFrom s reqs).done ↔ r ∈ s.done ∨ r ∈ reqs := by
  induction reqs generalizing s with
  | nil => simp [submitAllFrom]
  | cons q rest ih =>
    rw [submitAllFrom_cons, ih]
    unfold send
    split
    · rename_i hq
      constructor
      · rintro (h | h)
        · exact Or.inl h
        · exact Or.inr (List.mem_cons_of_mem _ h)
      · rintro (h | h)
        · exact Or.inl h
        · rcases List.mem_cons.mp h with h | h
          · exact Or.inl (h ▸ hq)
          · exact Or.inr h
    · simp only [List.mem_cons]
      tauto

theorem mem_queue_submitAllFrom (reqs : List Request) (s : RouterState)
    (hqd : ∀ x, x ∈ s.queue → x ∈ s.done) (r : Request) :
    r ∈ (submitAllFrom s reqs).queue ↔
      r ∈ s.queue ∨ (r ∈ reqs ∧ r ∉ s.done) := by
  induction reqs generalizing s with
  | nil => simp [submitAllFrom]
  | cons q rest ih =>
    rw [submitAllFrom_cons]
    by_cases hq : q ∈ s.done
    · have hsend : send s q = { s with itemsDuplicate := s.itemsDuplicate + 1 } := by
        unfold send; simp [hq]
      rw [hsend, ih _ (by exact hqd)]
      simp only [List.mem_cons]
      constructor
      · rintro (h | ⟨h, hnd⟩)
        · exact Or.inl h
        · exact Or.inr ⟨Or.inr h, hnd⟩
      · rintro (h | ⟨h | h, hnd⟩)
        · exact Or.inl h
        · exact absurd (h ▸ hq) hnd
        · exact Or.inr ⟨h, hnd⟩
    · have hsend : send s q =
          { s with done := q :: s.done
                   itemsQueued := s.itemsQueued + 1
                   queue := s.queue ++ [q] } := by
        unfold send; simp [hq]
      rw [hsend, ih]
      · simp only [List.mem_append, List.mem_cons, List.mem_singleton,
          List.not_mem_nil, or_false]
        constructor
        · rintro ((h | h) | ⟨h, hnd⟩)
          · exact Or.inl h
          · exact Or.inr ⟨Or.inl h, h ▸ hq⟩
          · exact Or.inr ⟨Or.inr h, fun hc => hnd (Or.inr hc)⟩
        · rintro (h | ⟨h | h, hnd⟩)
          · exact Or.inl (Or.inl h)
          · exact Or.inl (Or.inr h)
          · by_cases hrq : r = q
            · exact Or.inl (Or.inr hrq)
            · exact Or.inr ⟨h, fun hc => by
                rcases hc with hc | hc
                · exact hrq hc
                · exact hnd hc⟩
      · intro x hx
        rcases List.mem_append.mp hx with hx | hx
        · exact List.mem_cons_of_mem _ (hqd x hx)
        · simp only [List.mem_singleton] at hx
          exact hx ▸ List.mem_cons_self _ _

theorem nodup_queue_submitAllFrom (reqs : List Request) (s : RouterState)
    (hqd : ∀ x, x ∈ s.queue → x ∈ s.done) (hnd : s.queue.Nodup) :
    (submitAllFrom s reqs).queue.Nodup ∧
      (∀ x, x ∈ (submitAllFrom s reqs).queue → x ∈ (submitAllFrom s reqs).done) := by
  induction reqs generalizing s with
  | nil => exact ⟨hnd, hqd⟩
  | cons q rest ih =>
    rw [submitAllFrom_cons]
    by_cases hq : q ∈ s.done
    · have hsend : send s q = { s with itemsDuplicate := s.itemsDuplicate + 1 } := by
        unfold send; simp [hq]
      rw [hsend]
      exact ih _ hqd hnd
    · have hsend : send s q =
          { s with done := q :: s.done
                   itemsQueued := s.itemsQueued + 1
                   queue := s.queue ++ [q] } := by
        unfold send; simp [hq]
      rw [hsend]
      refine ih _ ?_ ?_
      · intro x hx
        rcases List.mem_append.mp hx with hx | hx
        · exact List.mem_cons_of_mem _ (hqd x hx)
        · simp only [List.mem_singleton] at hx
          exact hx ▸ List.mem_cons_self _ _
      · refine List.Nodup.append hnd (List.nodup_singleton q) ?_
        intro x hx hx1
        simp only [List.mem_singleton] at hx1
        exact hq (hx1 ▸ hqd x hx)

theorem counts_submitAllFrom (reqs : List Request) (s : RouterState) :
    (submitAllFrom s reqs).itemsDuplicate + (submitAllFrom s reqs).queue.length =
      s.itemsDuplicate + s.queue.length + reqs.length ∧
    (submitAllFrom s reqs).itemsQueued + s.queue.length =
      (submitAllFrom s reqs).queue.length + s.itemsQueued := by
  induction reqs generalizing s with
  | nil => simp only [submitAllFrom, List.foldl_nil, List.length_nil]; omega
  | cons q rest ih =>
    rw [submitAllFrom_cons]
    by_cases hq : q ∈ s.done
    · have hsend : send s q = { s with itemsDuplicate := s.itemsDuplicate + 1 } := by
        unfold send; simp [hq]
      rw [hsend]
      have h := ih ({ s with itemsDuplicate := s.itemsDuplicate + 1 })
      constructor
      · rw [h.1]; simp; omega
      · have := h.2; simp at this ⊢; omega
    · have hsend : send s q =
          { s with done := q :: s.done
                   itemsQueued := s.itemsQueued + 1
                   queue := s.queue ++ [q] } := by
        unfold send; simp [hq]
      rw [hsend]
      have h := ih ({ s with done := q :: s.done
                             itemsQueued := s.itemsQueued + 1
                             queue := s.queue ++ [q] })
      constructor
      · rw [h.1]; simp; omega
      · have := h.2; simp at this ⊢; omega

/-- C1: For any submission sequence, the worker input queue receives each
distinct request (by kind + URL) exactly once (it is duplicate-free and its
members are exactly the submitted requests, so its length is the number of
distinct submissions); the queued counter equals the number of forwarded
items; the duplicate counter equals total submissions minus distinct
submissions; and the seen-set only ever grows: anything in it after some
submissions is still in it after any further submissions. -/
theorem router_dedup_invariant (reqs more : List Request) :
    (submitAll reqs).queue.Nodup ∧
    (∀ r, r ∈ (submitAll reqs).queue ↔ r ∈ reqs) ∧
    (submitAll reqs).itemsQueued = (submitAll reqs).queue.length ∧
    (submitAll reqs).itemsDuplicate + (submitAll reqs).queue.length = reqs.length ∧
    (submitAll reqs).queue.length = reqs.dedup.length ∧
    (∀ r, r ∈ (submitAll reqs).done → r ∈ (submitAll (reqs ++ more)).done) := by
  have hinit : ∀ x, x ∈ initRouter.queue → x ∈ initRouter.done := by
    intro x hx; simp [initRouter] at hx
  have hnodup := nodup_queue_submitAllFrom reqs initRouter hinit (by simp [initRouter])
  have hmem : ∀ r, r ∈ (submitAll reqs).queue ↔ r ∈ reqs := by
    intro r
    rw [submitAll, mem_queue_submitAllFrom reqs initRouter hinit]
    simp [initRouter]
  have hcounts := counts_submitAllFrom reqs initRouter
  refine ⟨hnodup.1, hmem, ?_, ?_, ?_, ?_⟩
  · have := hcounts.2; simpa [initRouter] using this
  · have := hcounts.1; simpa [initRouter] using this
  · have hfin : (submitAll reqs).queue.toFinset = reqs.toFinset := by
      ext r
      simp only [List.mem_toFinset]
      exact hmem r
    calc (submitAll reqs).queue.length
        = (submitAll reqs).queue.toFinset.card :=
          (List.toFinset_card_of_nodup hnodup.1).symm
      _ = reqs.toFinset.card := by rw [hfin]
      _ = reqs.dedup.length := List.card_toFinset reqs
  · intro r hr
    have : submitAll (reqs ++ more) = submitAllFrom (submitAll reqs) more := by
      simp [submitAll, submitAllFrom, List.foldl_append]
    rw [this]
    exact submitAllFrom_done_mono more _ r hr

/-- C1 witness: concrete run with a repeated submission. -/
theorem router_dedup_invariant_witness :
    (submitAll [Request.release "https://x.bandcamp.com/album/a",
                Request.release "https://x.bandcamp.com/album/a",
                Request.artist "https://x.bandcamp.com"]).queue.Nodup ∧
    (submitAll [Request.release "https://x.bandcamp.com/album/a",
                Request.release "https://x.bandcamp.com/album/a",
                Request.artist "https://x.bandcamp.com"]).itemsDuplicate +
      (submitAll [Request.release "https://x.bandcamp.com/album/a",
                  Request.release "https://x.bandcamp.com/album/a",
                  Request.artist "https://x.bandcamp.com"]).queue.length = 3 := by
  have h := router_dedup_invariant
    [Request.release "https://x.bandcamp.com/album/a",
     Request.release "https://x.bandcamp.com/album/a",
     Request.artist "https://x.bandcamp.com"] []
  exact ⟨h.1, by simpa using h.2.2.2.1⟩

/-! ## Cached, rate-limited web client (`src/background/web/client.rs`) -/

/-- HTTP method of a cached call (`enum Method { Get, Post }`). -/
inductive WMethod where
  | get
  | post
deriving DecidableEq, Repr

/-- Cache key: url, method, request body or none — the unique index
`pages (url, method, data)` of the sqlite cache. The JSON body is modelled
by its serialized text. -/
structure WebKey where
  url : String
  method : WMethod
  data : Option String
deriving DecidableEq, Repr

/-- State owned by `Client`: cache rows (keyed association list standing
for the sqlite `pages` table) and the statistics counters it touches.
`netCalls` instruments how many times the real network was invoked
(`get_from_server` / `post_to_server`). -/
structure WebState where
  cache : List (WebKey × String)
  webRequests : Nat
  cacheHits : Nat
  cacheMisses : Nat
  netCalls : Nat
deriving DecidableEq, Repr

/-- The sqlite lookup
`select response from pages where url = :url and method = :method and data is :data`
over the modelled table. -/
def lookupCache (c : List (WebKey × String)) (k : WebKey) : Option String :=
  (c.find? (fun row => decide (row.1 = k))).map (·.2)

/-- `Client::get_from_cache`: consult the table; bump `web_cache_hits` on a
hit, `web_cache_misses` on a miss. -/
def getFromCache (s : WebState) (k : WebKey) : Option String × WebState :=
  match lookupCache s.cache k with
  | some r => (some r, { s with cacheHits := s.cacheHits + 1 })
  | none => (none, { s with cacheMisses := s.cacheMisses + 1 })

/-- `Client::get_from_server` / `post_to_server`: a real network call,
abstracted by `server`; errors propagate to the caller. -/
def getFromServer (server : WebKey → Except String String) (s : WebState)
    (k : WebKey) : Except String String × WebState :=
  (server k, { s with netCalls := s.netCalls + 1 })

/-- `Client::add_to_cache`: insert the fresh row (callers only insert after
a confirmed miss, so the unique index cannot fire). -/
def addToCache (s : WebState) (k : WebKey) (response : String) : WebState :=
  { s with cache := (k, response) :: s.cache }

/-- `Client::get` / `Client::post` (`src/background/web/client.rs` lines
97-121): bump `web_requests`; serve from cache on a hit; otherwise call the
server, store the result, and return it. The two Rust methods differ only
in the key's method/data components, which here live inside `k`. -/
def clientFetch (server : WebKey → Except String String) (s : WebState)
    (k : WebKey) : Except String String × WebState :=
  let s1 := { s with webRequests := s.webRequests + 1 }
  match getFromCache s1 k with
  | (some r, s2) => (.ok r, s2)
  | (none, s2) =>
    match getFromServer server s2 k with
    | (.error e, s3) => (.error e, s3)
    | (.ok body, s3) => (.ok body, addToCache s3 k body)

theorem lookupCache_cons_self (c : List (WebKey × String)) (k : WebKey)
    (b : String) : lookupCache ((k, b) :: c) k = some b := by
  simp [lookupCache, List.find?]

/-- One unfolding of `clientFetch` into its three outcomes (cache hit,
miss with network error, miss with network success). -/
theorem clientFetch_eq (server : WebKey → Except String String)
    (s : WebState) (k : WebKey) :
    clientFetch server s k =
      match lookupCache s.cache k with
      | some r =>
        (.ok r, { s with webRequests := s.webRequests + 1
                         cacheHits := s.cacheHits + 1 })
      | none =>
        match server k with
        | .error e =>
          (.error e, { s with webRequests := s.webRequests + 1
                              cacheMisses := s.cacheMisses + 1
                              netCalls := s.netCalls + 1 })
        | .ok body =>
          (.ok body, { s with cache := (k, body) :: s.cache
                              webRequests := s.webRequests + 1
                              cacheMisses := s.cacheMisses + 1
                              netCalls := s.netCalls + 1 }) := by
  simp only [clientFetch, getFromCache, getFromServer, addToCache]
  cases lookupCache s.cache k
  · cases server k <;> rfl
  · rfl

/-- C2: (round-trip law) whenever a fetch of key `k` returns a body, an
immediately repeated fetch of `k` issues no further network call, returns
the byte-identical body, and counts a cache hit rather than a miss; on a
miss the client counts the miss, makes exactly one network call, and (when
the call succeeds) stores the body in the cache and returns it; on a hit it
returns the stored body without any network call; and every fetch, hit or
miss, increments the `web_requests` counter. -/
theorem client_cache_idempotent (server : WebKey → Except String String)
    (s : WebState) (k : WebKey) (r1 : Except String String) (s1 : WebState)
    (h : clientFetch server s k = (r1, s1)) :
    s1.webRequests = s.webRequests + 1 ∧
    (∀ b, r1 = .ok b →
      (clientFetch server s1 k).1 = .ok b ∧
      (clientFetch server s1 k).2.netCalls = s1.netCalls ∧
      (clientFetch server s1 k).2.cacheHits = s1.cacheHits + 1 ∧
      (clientFetch server s1 k).2.cacheMisses = s1.cacheMisses ∧
      (clientFetch server s1 k).2.webRequests = s1.webRequests + 1) ∧
    (lookupCache s.cache k = none →
      s1.cacheMisses = s.cacheMisses + 1 ∧
      s1.netCalls = s.netCalls + 1 ∧
      (∀ b, server k = .ok b → r1 = .ok b ∧ lookupCache s1.cache k = some b)) ∧
    (∀ b, lookupCache s.cache k = some b →
      r1 = .ok b ∧ s1.cacheHits = s.cacheHits + 1 ∧
      s1.netCalls = s.netCalls ∧ s1.cacheMisses = s.cacheMisses) := by
  rcases hlk : lookupCache s.cache k with _ | b0
  · -- first fetch was a miss
    rcases hsrv : server k with e | body
    · -- network error: nothing cached, error returned
      have hrun := clientFetch_eq server s k
      rw [hlk, hsrv, h] at hrun
      simp only [Prod.mk.injEq] at hrun
      obtain ⟨hr1, hs1⟩ := hrun
      subst hr1; subst hs1
      refine ⟨rfl, ?_, ?_, ?_⟩
      · intro b hb
        simp at hb
      · intro _
        refine ⟨rfl, rfl, ?_⟩
        intro b hb
        simp [hsrv] at hb
      · intro b hb
        simp [hlk] at hb
    · -- network success: body stored, second fetch is a hit
      have hrun := clientFetch_eq server s k
      rw [hlk, hsrv, h] at hrun
      simp only [Prod.mk.injEq] at hrun
      obtain ⟨hr1, hs1⟩ := hrun
      subst hr1; subst hs1
      have hsecond := clientFetch_eq server
        ({ s with cache := (k, body) :: s.cache
                  webRequests := s.webRequests + 1
                  cacheMisses := s.cacheMisses + 1
                  netCalls := s.netCalls + 1 }) k
      simp only [lookupCache_cons_self] at hsecond
      refine ⟨rfl, ?_, ?_, ?_⟩
      · intro b hb
        rcases hb with ⟨⟩
        rw [hsecond]
        exact ⟨rfl, rfl, rfl, rfl, rfl⟩
      · intro _
        refine ⟨rfl, rfl, ?_⟩
        intro b hb
        rcases hb with ⟨⟩
        exact ⟨rfl, lookupCache_cons_self _ _ _⟩
      · intro b hb
        simp at hb
  · -- first fetch was a hit
    have hrun := clientFetch_eq server s k
    rw [hlk, h] at hrun
    simp only [Prod.mk.injEq] at hrun
    obtain ⟨hr1, hs1⟩ := hrun
    subst hr1; subst hs1
    have hsecond := clientFetch_eq server
      ({ s with webRequests := s.webRequests + 1
                cacheHits := s.cacheHits + 1 }) k
    simp only [hlk] at hsecond
    refine ⟨rfl, ?_, ?_, ?_⟩
    · intro b hb
      rcases hb with ⟨⟩
      rw [hsecond]
      exact ⟨rfl, rfl, rfl, rfl, rfl⟩
    · intro hc
      simp at hc
    · intro b hb
      rcases hb with ⟨⟩
      exact ⟨rfl, rfl, rfl, rfl⟩

/-- C2 witness: a concrete miss-then-hit run against a one-page server. -/
theorem client_cache_idempotent_witness :
    (clientFetch (fun _ => .ok "body") ⟨[], 0, 0, 0, 0⟩
        ⟨"https://x.bandcamp.com/album/a", WMethod.get, none⟩).2.webRequests = 1 := by
  have h := client_cache_idempotent (fun _ => .ok "body") ⟨[], 0, 0, 0, 0⟩
    ⟨"https://x.bandcamp.com/album/a", WMethod.get, none⟩
    (clientFetch (fun _ => .ok "body") ⟨[], 0, 0, 0, 0⟩
      ⟨"https://x.bandcamp.com/album/a", WMethod.get, none⟩).1
    (clientFetch (fun _ => .ok "body") ⟨[], 0, 0, 0, 0⟩
      ⟨"https://x.bandcamp.com/album/a", WMethod.get, none⟩).2 rfl
  exact h.1

/-! ## Rate limiter (`Client::check_delay`, `src/background/web/client.rs`
lines 160-167). Time is modelled as a `Nat` count of milliseconds;
`requestDelay` is the one-second `REQUEST_DELAY`. `check_delay` is entered
at instant `now`; if the elapsed time since `last_request` does not exceed
the delay (`REQUEST_DELAY.checked_sub(elapsed)` is `Some`), the thread
sleeps for exactly the remainder; it then records the post-sleep instant
as the new `last_request` and the HTTP call is issued at that instant. -/

/-- `REQUEST_DELAY = Duration::from_secs(1)`, in milliseconds. -/
def requestDelay : Nat := 1000

/-- The instant at which the HTTP call following `check_delay` is issued
(equal to the recorded new `last_request`): `now` plus the sleep remainder,
when `elapsed = now - last` is within the delay, else `now` itself. -/
def checkDelay (last now : Nat) : Nat :=
  if now - last ≤ requestDelay then now + (requestDelay - (now - last)) else now

/-- Issue times of a sequence of true network calls: each call enters
`check_delay` at its arrival instant and the resulting issue instant
becomes the `last_request` seen by the next call. -/
def callTimesFrom (last : Nat) : List Nat → List Nat
  | [] => []
  | a :: rest =>
    let t := checkDelay last a
    t :: callTimesFrom t rest

/-- Physical plausibility of the arrival instants: each call enters
`check_delay` no earlier than the previous call was issued (the client is
single-threaded, so a call starts only after the previous one returned),
and no earlier than the initially recorded `last_request`. -/
def arrivalsOk (last : Nat) : List Nat → Prop
  | [] => True
  | a :: rest => last ≤ a ∧ arrivalsOk (checkDelay last a) rest

instance instDecArrivalsOk (last : Nat) (l : List Nat) :
    Decidable (arrivalsOk last l) := by
  induction l generalizing last with
  | nil => exact isTrue trivial
  | cons a rest ih => exact @instDecidableAnd _ _ (Nat.decLe _ _) (ih _)

/-- Consecutive elements are at least `requestDelay` apart. -/
def spacedOut : List Nat → Prop
  | [] => True
  | [_] => True
  | t :: u :: rest => t + requestDelay ≤ u ∧ spacedOut (u :: rest)

theorem checkDelay_eq_max (last now : Nat) (h : last ≤ now) :
    checkDelay last now = max now (last + requestDelay) := by
  unfold checkDelay
  split
  · rename_i hle
    omega
  · rename_i hgt
    omega

theorem checkDelay_ge (last now : Nat) : now ≤ checkDelay last now := by
  unfold checkDelay
  split
  · omega
  · omega

theorem callTimesFrom_spaced (arrivals : List Nat) (last : Nat)
    (h : arrivalsOk last arrivals) :
    spacedOut (callTimesFrom last arrivals) ∧
    (∀ t, t ∈ callTimesFrom last arrivals → last + requestDelay ≤ t ∨ last ≤ t) := by
  induction arrivals generalizing last with
  | nil => exact ⟨trivial, by intro t ht; simp [callTimesFrom] at ht⟩
  | cons a rest ih =>
    obtain ⟨hla, hrest⟩ := h
    have hfirst : last + requestDelay ≤ checkDelay last a ∨ last ≤ checkDelay last a := by
      rw [checkDelay_eq_max last a hla]
      left
      exact le_max_right _ _
    have htail := ih (checkDelay last a) hrest
    constructor
    · show spacedOut (checkDelay last a :: callTimesFrom (checkDelay last a) rest)
      cases hr : rest with
      | nil => simp [callTimesFrom, spacedOut]
      | cons b rest2 =>
        subst hr
        obtain ⟨hab, _⟩ := hrest
        refine ⟨?_, htail.1⟩
        show checkDelay last a + requestDelay ≤ checkDelay (checkDelay last a) b
        rw [checkDelay_eq_max (checkDelay last a) b hab]
        exact le_max_right _ _
    · intro t ht
      rcases List.mem_cons.mp ht with rfl | ht
      · exact hfirst
      · rcases htail.2 t ht with h1 | h1
        · right
          have := checkDelay_ge last a
          omega
        · right
          have := checkDelay_ge last a
          omega

/-- C4: the issue instant computed by `check_delay` when entered at `now`
with recorded last-call instant `last ≤ now` is exactly
`max now (last + REQUEST_DELAY)` — i.e. when the elapsed time is below the
one-second minimum the thread sleeps for exactly the remainder
(`now + (REQUEST_DELAY - elapsed) = last + REQUEST_DELAY`) and otherwise
does not sleep — and the new `last_request` is recorded at that instant, so
any sequence of physically ordered true network calls is issued with
consecutive instants at least `REQUEST_DELAY` apart; moreover the delay
runs only for true network calls: a cache hit performs no network call at
all (`netCalls` is unchanged by a hit in `clientFetch`). -/
theorem rate_limit_min_interval (last now : Nat) (arrivals : List Nat)
    (server : WebKey → Except String String) (s : WebState) (k : WebKey)
    (hln : last ≤ now) (harr : arrivalsOk last arrivals)
    (hhit : (lookupCache s.cache k).isSome) :
    checkDelay last now = max now (last + requestDelay) ∧
    (now - last ≤ requestDelay →
      checkDelay last now = now + (requestDelay - (now - last)) ∧
      checkDelay last now = last + requestDelay) ∧
    (requestDelay < now - last → checkDelay last now = now) ∧
    spacedOut (callTimesFrom last arrivals) ∧
    (clientFetch server s k).2.netCalls = s.netCalls := by
  refine ⟨checkDelay_eq_max last now hln, ?_, ?_, (callTimesFrom_spaced arrivals last harr).1, ?_⟩
  · intro hle
    constructor
    · unfold checkDelay
      simp [hle]
    · rw [checkDelay_eq_max last now hln]
      omega
  · intro hgt
    unfold checkDelay
    split
    · omega
    · rfl
  · rcases hlk : lookupCache s.cache k with _ | b
    · rw [hlk] at hhit
      cases hhit
    · have := clientFetch_eq server s k
      rw [hlk] at this
      rw [this]

/-- C4 witness: three calls, each entering the limiter the moment the
previous one was issued, and a hit against a cache holding the key. -/
theorem rate_limit_min_interval_witness :
    spacedOut (callTimesFrom 0 [0, 1000, 2000]) ∧
    (clientFetch (fun _ => .ok "fresh")
        ⟨[(⟨"https://x.bandcamp.com", WMethod.get, none⟩, "cached")], 0, 0, 0, 0⟩
        ⟨"https://x.bandcamp.com", WMethod.get, none⟩).2.netCalls = 0 := by
  have h := rate_limit_min_interval 0 0 [0, 1000, 2000]
    (fun _ => .ok "fresh")
    ⟨[(⟨"https://x.bandcamp.com", WMethod.get, none⟩, "cached")], 0, 0, 0, 0⟩
    ⟨"https://x.bandcamp.com", WMethod.get, none⟩
    (by decide) (by decide) (by decide)
  exact ⟨h.2.2.2.1, h.2.2.2.2⟩

/-! ## Background worker loop (`Background::run`,
`src/background/mod.rs` lines 130-144). The loop pulls requests from the
input channel; per item it decrements `items_queued`, stores `true` into
the `items_processing` flag, handles the request, and — unless handling
failed with a `SendError` against the closed output channel, in which case
it returns from the loop at once — stores `false` into `items_processing`
and increments `items_completed` before looping. The outcome of
`handle_request` for each request is abstracted as an oracle. -/

/-- Outcome of `handle_request` for one request: success, a send error
against the closed output channel (`error.is::<SendError<Response>>()`),
or any other per-request failure (network, cache, extraction). -/
inductive HandleOutcome where
  | ok
  | sendErr
  | otherErr
deriving DecidableEq, Repr

/-- The statistics fields touched by `Background::run`. `items_processing`
is declared `AtomicBool` in `Stats` (`src/background/mod.rs` line 41) and
is therefore modelled as a `Bool`. -/
structure BgStats where
  itemsQueued : Nat
  itemsProcessing : Bool
  itemsCompleted : Nat
deriving DecidableEq, Repr

/-- The diagnostics read of the flag
(`stats.items_processing.load(..) as usize`,
`src/background/diagnostic.rs`): `false ↦ 0`, `true ↦ 1`. -/
def procValue (s : BgStats) : Nat := if s.itemsProcessing then 1 else 0

/-- Result of running the loop over a queue of requests: every
intermediate statistics state in order, the requests that were processed
to completion, whether the loop exited early on a send error, and the
final statistics. -/
structure BgResult where
  trace : List BgStats
  completed : List Request
  exitedEarly : Bool
  final : BgStats
deriving DecidableEq, Repr

/-- `Background::run`: iterate the queue, updating stats exactly as the
source does; a `SendError` from `handle_request` returns from the loop
immediately (leaving the flag `true` and the item uncounted), any other
error only logs and the iteration completes normally. -/
def bgRun (handle : Request → HandleOutcome) (s : BgStats) :
    List Request → BgResult
  | [] => ⟨[], [], false, s⟩
  | r :: rest =>
    let s1 : BgStats := { s with itemsQueued := s.itemsQueued - 1 }
    let s2 : BgStats := { s1 with itemsProcessing := true }
    match handle r with
    | .sendErr => ⟨[s1, s2], [], true, s2⟩
    | _ =>
      let s3 : BgStats := { s2 with itemsProcessing := false }
      let s4 : BgStats := { s3 with itemsCompleted := s3.itemsCompleted + 1 }
      let res := bgRun handle s4 rest
      ⟨s1 :: s2 :: s3 :: s4 :: res.trace, r :: res.completed,
        res.exitedEarly, res.final⟩

theorem bgRun_cons_sendErr (handle : Request → HandleOutcome) (s : BgStats)
    (r : Request) (rest : List Request) (hr : handle r = .sendErr) :
    bgRun handle s (r :: rest) =
      ⟨[⟨s.itemsQueued - 1, s.itemsProcessing, s.itemsCompleted⟩,
        ⟨s.itemsQueued - 1, true, s.itemsCompleted⟩], [], true,
        ⟨s.itemsQueued - 1, true, s.itemsCompleted⟩⟩ := by
  simp only [bgRun, hr]

theorem bgRun_cons_continue (handle : Request → HandleOutcome) (s : BgStats)
    (r : Request) (rest : List Request) (hr : handle r ≠ .sendErr) :
    bgRun handle s (r :: rest) =
      ⟨⟨s.itemsQueued - 1, s.itemsProcessing, s.itemsCompleted⟩ ::
        ⟨s.itemsQueued - 1, true, s.itemsCompleted⟩ ::
        ⟨s.itemsQueued - 1, false, s.itemsCompleted⟩ ::
        ⟨s.itemsQueued - 1, false, s.itemsCompleted + 1⟩ ::
        (bgRun handle ⟨s.itemsQueued - 1, false, s.itemsCompleted + 1⟩ rest).trace,
        r :: (bgRun handle ⟨s.itemsQueued - 1, false, s.itemsCompleted + 1⟩ rest).completed,
        (bgRun handle ⟨s.itemsQueued - 1, false, s.itemsCompleted + 1⟩ rest).exitedEarly,
        (bgRun handle ⟨s.itemsQueued - 1, false, s.itemsCompleted + 1⟩ rest).final⟩ := by
  rcases hc : handle r with _ | _ | _
  · simp only [bgRun, hc]
  · exact absurd hc hr
  · simp only [bgRun, hc]

/-- C5: the worker loop exits early exactly when some queued request's
handling fails with a send error against the closed output channel; every
request before the first such failure — including those whose handling
fails for any other reason — is processed to completion and the loop
continues past it, so absent a send error the whole queue is processed. -/
theorem worker_exit_only_on_send_error (handle : Request → HandleOutcome)
    (s : BgStats) (reqs : List Request) :
    ((bgRun handle s reqs).exitedEarly = true ↔
      ∃ r ∈ reqs, handle r = .sendErr) ∧
    (bgRun handle s reqs).completed =
      reqs.takeWhile (fun r => !(handle r == HandleOutcome.sendErr)) ∧
    ((∀ r ∈ reqs, handle r ≠ .sendErr) →
      (bgRun handle s reqs).completed = reqs) := by
  induction reqs generalizing s with
  | nil =>
    refine ⟨?_, rfl, fun _ => rfl⟩
    simp [bgRun]
  | cons r rest ih =>
    by_cases hr : handle r = .sendErr
    · rw [bgRun_cons_sendErr handle s r rest hr]
      refine ⟨?_, ?_, ?_⟩
      · constructor
        · intro _
          exact ⟨r, List.mem_cons_self _ _, hr⟩
        · intro _
          rfl
      · rw [List.takeWhile_cons]
        simp [hr]
      · intro hall
        exact absurd hr (hall r (List.mem_cons_self _ _))
    · rw [bgRun_cons_continue handle s r rest hr]
      have h := ih (⟨s.itemsQueued - 1, false, s.itemsCompleted + 1⟩ : BgStats)
      refine ⟨?_, ?_, ?_⟩
      · show (bgRun handle ⟨s.itemsQueued - 1, false, s.itemsCompleted + 1⟩
            rest).exitedEarly = true ↔ _
        rw [h.1]
        constructor
        · rintro ⟨x, hx, hsend⟩
          exact ⟨x, List.mem_cons_of_mem _ hx, hsend⟩
        · rintro ⟨x, hx, hsend⟩
          rcases List.mem_cons.mp hx with hx1 | hx1
          · exact absurd (hx1 ▸ hsend) hr
          · exact ⟨x, hx1, hsend⟩
      · rw [List.takeWhile_cons]
        have hbeq : (handle r == HandleOutcome.sendErr) = false := by
          rcases hc : handle r with _ | _ | _
          · rfl
          · exact absurd hc hr
          · rfl
        rw [hbeq]
        show r :: _ = r :: _
        rw [h.2.1]
      · intro hall
        show r :: _ = r :: rest
        rw [h.2.2 (fun x hx => hall x (List.mem_cons_of_mem _ hx))]

/-- C5 witness: a queue whose second item hits a closed output channel. -/
theorem worker_exit_only_on_send_error_witness :
    (bgRun
      (fun r => match r with
        | Request.artist _ => HandleOutcome.otherErr
        | Request.release _ => HandleOutcome.sendErr
        | Request.user _ => HandleOutcome.ok)
      ⟨3, false, 0⟩
      [Request.artist "a", Request.release "b", Request.user "c"]).exitedEarly = true ∧
    (bgRun
      (fun r => match r with
        | Request.artist _ => HandleOutcome.otherErr
        | Request.release _ => HandleOutcome.sendErr
        | Request.user _ => HandleOutcome.ok)
      ⟨3, false, 0⟩
      [Request.artist "a", Request.release "b", Request.user "c"]).completed =
      [Request.artist "a"] := by
  have h := worker_exit_only_on_send_error
    (fun r => match r with
      | Request.artist _ => HandleOutcome.otherErr
      | Request.release _ => HandleOutcome.sendErr
      | Request.user _ => HandleOutcome.ok)
    ⟨3, false, 0⟩
    [Request.artist "a", Request.release "b", Request.user "c"]
  refine ⟨h.1.mpr ⟨Request.release "b", by decide, rfl⟩, ?_⟩
  rw [h.2.1]
  decide

/-- C8 counterexample: the claim that the items-currently-processing
statistic can exceed one is false — `items_processing` is an `AtomicBool`
(`src/background/mod.rs` line 41) written with `store(true)`/`store(false)`
by the single background thread, so the 0/1 value the diagnostics read from
it never exceeds one in any state the loop ever produces. -/
theorem items_processing_not_a_count :
    ¬ ∃ (handle : Request → HandleOutcome) (s : BgStats) (reqs : List Request)
        (st : BgStats), st ∈ (bgRun handle s reqs).trace ∧ 1 < procValue st := by
  rintro ⟨handle, s, reqs, st, _, hgt⟩
  unfold procValue at hgt
  split at hgt
  · omega
  · omega

/-- C8 (amended): `items_processing` is a boolean flag, not a count: it is
stored `true` when the single background thread starts handling a request
and `false` when the iteration completes, the diagnostics read it as a 0/1
value which never exceeds one, and starting from a cleared flag it remains
set at the end only when the loop exited early on a send error (the one
path that skips the `store(false)`). -/
theorem items_processing_boolean_flag (handle : Request → HandleOutcome)
    (s : BgStats) (reqs : List Request) (hs : s.itemsProcessing = false) :
    (∀ st ∈ (bgRun handle s reqs).trace, procValue st ≤ 1) ∧
    (bgRun handle s reqs).final.itemsProcessing = (bgRun handle s reqs).exitedEarly := by
  constructor
  · intro st _
    unfold procValue
    split
    · omega
    · omega
  · induction reqs generalizing s with
    | nil => simpa [bgRun] using hs
    | cons r rest ih =>
      by_cases hr : handle r = .sendErr
      · rw [bgRun_cons_sendErr handle s r rest hr]
      · rw [bgRun_cons_continue handle s r rest hr]
        exact ih (⟨s.itemsQueued - 1, false, s.itemsCompleted + 1⟩ : BgStats) rfl

/-- C8 witness: a two-item queue processed to completion, flag cleared. -/
theorem items_processing_boolean_flag_witness :
    (bgRun (fun _ => HandleOutcome.ok) ⟨2, false, 0⟩
      [Request.artist "a", Request.user "b"]).final.itemsProcessing =
    (bgRun (fun _ => HandleOutcome.ok) ⟨2, false, 0⟩
      [Request.artist "a", Request.user "b"]).exitedEarly := by
  have h := items_processing_boolean_flag (fun _ => HandleOutcome.ok) ⟨2, false, 0⟩
    [Request.artist "a", Request.user "b"] rfl
  exact h.2

/-! ## Entity scraper (`src/background/scraper/scraper.rs`). Pages are the
already-deserialized embedded JSON blobs the scraper works on; `roundDay`
abstracts `jiff`'s `round(Unit::Day)` (timestamps are `Int` seconds, the
Unix-epoch sentinel being `0`); `joinUrl` abstracts the `url` crate's
relative-reference join. The paginated collectors / collection APIs are
modelled by the list of successive responses the origin would return; an
exhausted list stands for a failing network call. -/

/-- An artist node (`data::Artist`): numeric id plus canonical URL. -/
structure Artist where
  id : Nat
  url : String
deriving DecidableEq, Repr

/-- `data::ArtistDetails`. -/
structure ArtistDetails where
  name : String
deriving DecidableEq, Repr

/-- A release node (`data::Release`). -/
structure Release where
  id : Nat
  url : String
deriving DecidableEq, Repr

/-- `data::ReleaseType`: album vs single track. -/
inductive ReleaseType where
  | album
  | track
deriving DecidableEq, Repr

/-- `data::ReleaseDetails`; `length` (seconds) models the
`jiff::SignedDuration`, `released` the day-rounded `jiff::Zoned`
timestamp. -/
structure ReleaseDetails where
  ty : ReleaseType
  title : String
  artist : String
  tracks : Option Nat
  length : Int
  released : Int
deriving DecidableEq, Repr

/-- A fan/user node (`data::User`). -/
structure User where
  id : Nat
  url : String
deriving DecidableEq, Repr

/-- `data::UserDetails`. -/
structure UserDetails where
  name : String
  username : String
deriving DecidableEq, Repr

/-- A review entry of the collectors blob (`struct Review`). -/
structure Review where
  fan_id : Nat
  username : String
deriving DecidableEq, Repr

/-- A thumbs entry of the collectors blob (`struct Fan`) carrying the
pagination continuation token. -/
structure Fan where
  fan_id : Nat
  username : String
  token : String
deriving DecidableEq, Repr

/-- The `#collectors-data` blob (`struct Collectors`). -/
structure Collectors where
  more_thumbs_available : Bool
  reviews : List Review
  thumbs : List Fan
deriving DecidableEq, Repr

/-- One response page of the paginated collectors API (`struct Thumbs`). -/
structure Thumbs where
  results : List Fan
  more_available : Bool
deriving DecidableEq, Repr

/-- The ld+json `track` item list: per-track durations (already parsed,
in seconds) and the `numberOfItems` count. -/
structure ItemList where
  elements : List Int
  length : Nat
deriving DecidableEq, Repr

/-- A release page's parsed embedded data (`struct ReleasePage` plus the
fields of `Properties`, `DataBand`, `DataTralbumCurrent` and
`ReleaseLdData` that `scrape_release` reads). `release_date` is `0` when
the page omitted it (serde `default`, the epoch sentinel). -/
structure ReleasePage where
  item_type : String
  item_id : Nat
  band_id : Nat
  discography : Option String
  name : String
  by_artist : String
  track : Option ItemList
  duration : Option Int
  release_date : Int
  publish_date : Int
  collectors : Collectors
deriving DecidableEq, Repr

/-- Result of a scrape: success, an extraction/network error carried as an
`eyre` message, or a Rust panic (`unwrap` on `None`). -/
inductive SResult (α : Type) where
  | ok (val : α)
  | error (msg : String)
  | panicked
deriving DecidableEq, Repr

/-- `format!("https://bandcamp.com/{}", review.username)` as a `User`. -/
def reviewUser (r : Review) : User :=
  ⟨r.fan_id, "https://bandcamp.com/" ++ r.username⟩

/-- `format!("https://bandcamp.com/{}", thumb.username)` as a `User`. -/
def fanUser (f : Fan) : User :=
  ⟨f.fan_id, "https://bandcamp.com/" ++ f.username⟩

/-- The release length (`scrape_release` lines 327-340): the top-level
ld+json duration, else the track durations combined with `reduce(+)`, else
the `Default` zero duration. -/
def releaseLength (page : ReleasePage) : Int :=
  match page.duration with
  | some d => d
  | none =>
    match page.track with
    | none => 0
    | some tl =>
      match tl.elements with
      | [] => 0
      | d :: ds => ds.foldl (fun a b => a + b) d

/-- The `ReleaseDetails` literal built inside `on_release(...)`
(`scrape_release` lines 313-343), including the type-code match whose
unknown-code arm aborts the scrape with an extraction error, and the
publish-date fallback for the epoch sentinel. -/
def mkDetails (roundDay : Int → Int) (page : ReleasePage) :
    SResult ReleaseDetails :=
  let released :=
    if page.release_date = 0 then page.publish_date else page.release_date
  match page.item_type with
  | "a" => .ok ⟨.album, page.name, page.by_artist, page.track.map ItemList.length,
      releaseLength page, roundDay released⟩
  | "t" => .ok ⟨.track, page.name, page.by_artist, page.track.map ItemList.length,
      releaseLength page, roundDay released⟩
  | other => .error ("unknown release type " ++ other)

/-- One callback invocation during a release scrape, in invocation order:
`on_release` (the primary), `on_release_artist`, or one `on_fans` batch. -/
inductive SEvent where
  | primary (r : Release) (details : ReleaseDetails)
  | owningArtist (a : Artist)
  | fans (us : List User)
deriving DecidableEq, Repr

/-- Whether the event is the primary (`on_release`) callback. -/
def SEvent.isPrimary : SEvent → Bool
  | .primary _ _ => true
  | _ => false

/-- The `while more_available` collectors pagination loop
(`scrape_release` lines 380-396): each iteration POSTs for the next page,
takes the next token from `response.results.last().unwrap()` — a panic
when the results list is empty — and emits one fans batch; the returned
`Nat` counts the API calls made. -/
def collectLoop : Bool → List Thumbs → SResult (List (List User)) × Nat
  | false, _ => (.ok [], 0)
  | true, [] => (.error "network error", 0)
  | true, page :: rest =>
    match page.results.getLast? with
    | none => (.panicked, 1)
    | some _ =>
      match collectLoop page.more_available rest with
      | (.ok batches, n) => (.ok (page.results.map fanUser :: batches), n + 1)
      | (.error m, n) => (.error m, n + 1)
      | (.panicked, n) => (.panicked, n + 1)

/-- `Scraper::scrape_release` (lines 293-397): the callback trace of a
release scrape, given the parsed page and the scripted collectors API, plus
the number of collectors API calls. The primary callback fires first (it
is `on_release`, invoked with the freshly built details before
`on_release_artist` and any fans batch); the pagination loop is entered
only when the embedded thumbs list yields a last-element token. -/
def scrapeRelease (roundDay : Int → Int) (joinUrl : String → String → String)
    (url : String) (page : ReleasePage) (api : List Thumbs) :
    SResult (List SEvent) × Nat :=
  match mkDetails roundDay page with
  | .error m => (.error m, 0)
  | .panicked => (.panicked, 0)
  | .ok details =>
    let rel : Release := ⟨page.item_id, url⟩
    let artist : Artist :=
      ⟨page.band_id,
        match page.discography with
        | some disc => joinUrl url disc
        | none => joinUrl url "/"⟩
    let ev0 : List SEvent :=
      [.primary rel details, .owningArtist artist,
        .fans (page.collectors.reviews.map reviewUser),
        .fans (page.collectors.thumbs.map fanUser)]
    match page.collectors.thumbs.getLast? with
    | none => (.ok ev0, 0)
    | some _ =>
      match collectLoop page.collectors.more_thumbs_available api with
      | (.ok batches, n) => (.ok (ev0 ++ batches.map SEvent.fans), n)
      | (.error m, n) => (.error m, n)
      | (.panicked, n) => (.panicked, n)

/-- A `li.music-grid-item` entry of an artist page. -/
structure MusicGridItem where
  item_id : Nat
  href : String
  title : String
  ty : String
deriving DecidableEq, Repr

/-- A `data-client-items` entry of an artist page. -/
structure ClientItem where
  art_id : Nat
  band_id : Nat
  id : Nat
  page_url : String
  title : String
  ty : String
deriving DecidableEq, Repr

/-- An artist page's parsed embedded data (`struct ArtistPage`). -/
structure ArtistPage where
  band_id : Nat
  band_name : String
  music_grid_items : List MusicGridItem
  client_items : Option (List ClientItem)
deriving DecidableEq, Repr

/-- One callback invocation during an artist scrape. -/
inductive AEvent where
  | primary (a : Artist) (details : ArtistDetails)
  | releases (rs : List Release)
deriving DecidableEq, Repr

/-- Whether the event is the primary (`on_artist`) callback. -/
def AEvent.isPrimary : AEvent → Bool
  | .primary _ _ => true
  | _ => false

/-- `Scraper::scrape_artist` (lines 459-494): `on_artist` first, then one
releases batch from the music grid markup, then one from the
client-rendered items (empty when the attribute is absent). -/
def scrapeArtist (joinUrl : String → String → String) (url : String)
    (page : ArtistPage) : List AEvent :=
  [.primary ⟨page.band_id, url⟩ ⟨page.band_name⟩,
    .releases (page.music_grid_items.map fun it =>
      ⟨it.item_id, joinUrl url it.href⟩),
    .releases ((page.client_items.getD []).map fun it =>
      ⟨it.id, joinUrl url it.page_url⟩)]

/-- A fan collection entry (`struct CollectionItem`). -/
structure CollectionItem where
  item_id : Nat
  item_url : String
deriving DecidableEq, Repr

/-- A fan page's parsed `#pagedata` blob (`struct FanPage` with
`FanData`, `CollectionData` and `ItemCache` flattened; the `item_cache`
map is modelled as an association list). -/
structure FanPage where
  fan_id : Nat
  name : String
  username : String
  collection_count : Nat
  last_token : String
  sequence : List String
  item_cache : List (String × CollectionItem)
deriving DecidableEq, Repr

/-- One response page of the paginated collection API
(`struct Collections`). -/
structure Collections where
  more_available : Bool
  last_token : String
  items : List CollectionItem
deriving DecidableEq, Repr

/-- One callback invocation during a fan scrape. -/
inductive UEvent where
  | primary (u : User) (details : UserDetails)
  | collection (rs : List Release)
deriving DecidableEq, Repr

/-- Whether the event is the primary (`on_fan`) callback. -/
def UEvent.isPrimary : UEvent → Bool
  | .primary _ _ => true
  | _ => false

/-- A collection entry as a `Release`. -/
def itemRelease (it : CollectionItem) : Release := ⟨it.item_id, it.item_url⟩

/-- `HashMap::remove`: take the entry for the key out of the map. -/
def removeAssoc (k : String) :
    List (String × CollectionItem) →
      Option (CollectionItem × List (String × CollectionItem))
  | [] => none
  | (k2, v) :: rest =>
    if k2 = k then some (v, rest)
    else
      match removeAssoc k rest with
      | none => none
      | some (v2, rest2) => some (v2, (k2, v) :: rest2)

/-- The sequence-driven extraction of the initial collection batch
(`scrape_fan` lines 420-427): each sequence key is removed from the item
cache; a missing key is the `cache missing collection item` extraction
error. -/
def takeSeq : List String → List (String × CollectionItem) →
    SResult (List CollectionItem)
  | [], _ => .ok []
  | s :: rest, cache =>
    match removeAssoc s cache with
    | none => .error "cache missing collection item"
    | some (it, cache2) =>
      match takeSeq rest cache2 with
      | .ok its => .ok (it :: its)
      | e => e

/-- The `while more_available` collection pagination loop (`scrape_fan`
lines 440-454); the next token is the response's own `last_token` field,
so no unwrap is involved. -/
def collectionsLoop : Bool → List Collections → SResult (List (List Release))
  | false, _ => .ok []
  | true, [] => .error "network error"
  | true, page :: rest =>
    match collectionsLoop page.more_available rest with
    | .ok batches => .ok (page.items.map itemRelease :: batches)
    | e => e

/-- `Scraper::scrape_fan` (lines 399-455): `on_fan` first, then the
reconstructed initial collection batch, then one batch per paginated
collection API page while `more_available` (initially
`items.len() < collection_count`). -/
def scrapeFan (page : FanPage) (api : List Collections) :
    SResult (List UEvent) :=
  let u : User := ⟨page.fan_id, "https://bandcamp.com/" ++ page.username⟩
  let details : UserDetails := ⟨page.name, page.username⟩
  match takeSeq page.sequence page.item_cache with
  | .error m => .error m
  | .panicked => .panicked
  | .ok items =>
    let more := decide (items.length < page.collection_count)
    match collectionsLoop more api with
    | .ok batches =>
      .ok (.primary u details :: .collection (items.map itemRelease) ::
        batches.map UEvent.collection)
    | .error m => .error m
    | .panicked => .panicked

/-! ## Request handling (`handle_request`, `src/background/mod.rs` lines
148-217 and `src/background/scraper/thread.rs` lines 38-113): the primary
callback only stashes the entity into a `RefCell`; relationship-batch
callbacks send a `Response` built from the stashed entity (an `unwrap`
panic if nothing is stashed yet); after the scrape returns, the stashed
primary entity is sent as the final `Response`. -/

/-- `enum Response` (`src/background/mod.rs`). -/
inductive Response where
  | artist (a : Artist) (details : ArtistDetails)
  | release (r : Release) (details : ReleaseDetails)
  | user (u : User) (details : UserDetails)
  | fans (r : Release) (us : List User)
  | releaseArtist (r : Release) (a : Artist)
  | collection (u : User) (rs : List Release)
  | releases (a : Artist) (rs : List Release)
deriving DecidableEq, Repr

/-- Classification of a `Response`: a primary entity response or one of
the relationship-batch variants. -/
inductive RTag where
  | primaryTag
  | fansTag
  | releaseArtistTag
  | collectionTag
  | releasesTag
deriving DecidableEq, Repr

/-- The classification map. -/
def Response.tag : Response → RTag
  | .artist _ _ => .primaryTag
  | .release _ _ => .primaryTag
  | .user _ _ => .primaryTag
  | .fans _ _ => .fansTag
  | .releaseArtist _ _ => .releaseArtistTag
  | .collection _ _ => .collectionTag
  | .releases _ _ => .releasesTag

/-- The release-branch callback wiring: fold the callback trace, stashing
the primary pair and sending a `Response` per relationship event built
from the stash (`release.borrow().as_ref().unwrap()`). -/
def wireRelease (stash : Option (Release × ReleaseDetails)) :
    List SEvent → SResult (List Response × Option (Release × ReleaseDetails))
  | [] => .ok ([], stash)
  | .primary r d :: rest => wireRelease (some (r, d)) rest
  | .owningArtist a :: rest =>
    match stash with
    | none => .panicked
    | some (r, _) =>
      match wireRelease stash rest with
      | .ok (resps, st2) => .ok (.releaseArtist r a :: resps, st2)
      | e => e
  | .fans us :: rest =>
    match stash with
    | none => .panicked
    | some (r, _) =>
      match wireRelease stash rest with
      | .ok (resps, st2) => .ok (.fans r us :: resps, st2)
      | e => e

/-- The `Request::Release` branch of `handle_request`: run the scrape,
deliver the relationship responses as they fire, and send the stashed
primary `Response::Release` last (`release.replace(None).take().unwrap()`
panics if the primary callback never fired). -/
def handleRelease (roundDay : Int → Int) (joinUrl : String → String → String)
    (url : String) (page : ReleasePage) (api : List Thumbs) :
    SResult (List Response) :=
  match (scrapeRelease roundDay joinUrl url page api).1 with
  | .error m => .error m
  | .panicked => .panicked
  | .ok evs =>
    match wireRelease none evs with
    | .ok (resps, some (r, d)) => .ok (resps ++ [.release r d])
    | .ok (_, none) => .panicked
    | .error m => .error m
    | .panicked => .panicked

/-- The artist-branch callback wiring (stash + `Response::Releases`). -/
def wireArtist (stash : Option (Artist × ArtistDetails)) :
    List AEvent → SResult (List Response × Option (Artist × ArtistDetails))
  | [] => .ok ([], stash)
  | .primary a d :: rest => wireArtist (some (a, d)) rest
  | .releases rs :: rest =>
    match stash with
    | none => .panicked
    | some (a, _) =>
      match wireArtist stash rest with
      | .ok (resps, st2) => .ok (.releases a rs :: resps, st2)
      | e => e

/-- The `Request::Artist` branch of `handle_request`. -/
def handleArtist (joinUrl : String → String → String) (url : String)
    (page : ArtistPage) : SResult (List Response) :=
  match wireArtist none (scrapeArtist joinUrl url page) with
  | .ok (resps, some (a, d)) => .ok (resps ++ [.artist a d])
  | .ok (_, none) => .panicked
  | .error m => .error m
  | .panicked => .panicked

/-- The user-branch callback wiring (stash + `Response::Collection`). -/
def wireUser (stash : Option (User × UserDetails)) :
    List UEvent → SResult (List Response × Option (User × UserDetails))
  | [] => .ok ([], stash)
  | .primary u d :: rest => wireUser (some (u, d)) rest
  | .collection rs :: rest =>
    match stash with
    | none => .panicked
    | some (u, _) =>
      match wireUser stash rest with
      | .ok (resps, st2) => .ok (.collection u rs :: resps, st2)
      | e => e

/-- The `Request::User` branch of `handle_request`. -/
def handleUser (page : FanPage) (api : List Collections) :
    SResult (List Response) :=
  match scrapeFan page api with
  | .error m => .error m
  | .panicked => .panicked
  | .ok evs =>
    match wireUser none evs with
    | .ok (resps, some (u, d)) => .ok (resps ++ [.user u d])
    | .ok (_, none) => .panicked
    | .error m => .error m
    | .panicked => .panicked

/-! ## Emission-order lemmas -/

/-- How the release branch's relationship callbacks package events as
responses, given the stashed release. -/
def toRespRelease (r : Release) : SEvent → Response
  | .primary r2 d2 => .release r2 d2
  | .owningArtist a => .releaseArtist r a
  | .fans us => .fans r us

/-- How the user branch's relationship callbacks package events. -/
def toRespUser (u : User) : UEvent → Response
  | .primary u2 d2 => .user u2 d2
  | .collection rs => .collection u rs

/-- How the artist branch's relationship callbacks package events. -/
def toRespArtist (a : Artist) : AEvent → Response
  | .primary a2 d2 => .artist a2 d2
  | .releases rs => .releases a rs

theorem scrapeRelease_ok_shape (roundDay : Int → Int)
    (joinUrl : String → String → String) (url : String) (page : ReleasePage)
    (api : List Thumbs) (evs : List SEvent) (n : Nat)
    (h : scrapeRelease roundDay joinUrl url page api = (.ok evs, n)) :
    ∃ (d : ReleaseDetails) (batches : List (List User)),
      mkDetails roundDay page = .ok d ∧
      evs = .primary ⟨page.item_id, url⟩ d ::
        .owningArtist ⟨page.band_id,
          match page.discography with
          | some disc => joinUrl url disc
          | none => joinUrl url "/"⟩ ::
        .fans (page.collectors.reviews.map reviewUser) ::
        .fans (page.collectors.thumbs.map fanUser) ::
        batches.map SEvent.fans := by
  unfold scrapeRelease at h
  rcases hd : mkDetails roundDay page with d | m | _
  · simp only [hd] at h
    rcases hl : page.collectors.thumbs.getLast? with _ | f
    · simp only [hl] at h
      refine ⟨d, [], rfl, ?_⟩
      obtain ⟨h1, _⟩ := Prod.mk.injEq .. ▸ h
      injection h1 with h2
      rw [← h2]
      rfl
    · simp only [hl] at h
      rcases hcl : collectLoop page.collectors.more_thumbs_available api
        with ⟨res, cnt⟩
      rcases res with batches | m | _
      · simp only [hcl] at h
        obtain ⟨h1, _⟩ := Prod.mk.injEq .. ▸ h
        injection h1 with h2
        refine ⟨d, batches, rfl, ?_⟩
        rw [← h2]
        rfl
      · simp only [hcl] at h
        obtain ⟨h1, _⟩ := Prod.mk.injEq .. ▸ h
        cases h1
      · simp only [hcl] at h
        obtain ⟨h1, _⟩ := Prod.mk.injEq .. ▸ h
        cases h1
  · simp only [hd] at h
    obtain ⟨h1, _⟩ := Prod.mk.injEq .. ▸ h
    cases h1
  · simp only [hd] at h
    obtain ⟨h1, _⟩ := Prod.mk.injEq .. ▸ h
    cases h1

theorem scrapeFan_ok_shape (page : FanPage) (api : List Collections)
    (evs : List UEvent) (h : scrapeFan page api = .ok evs) :
    ∃ (items : List CollectionItem) (batches : List (List Release)),
      takeSeq page.sequence page.item_cache = .ok items ∧
      evs = .primary ⟨page.fan_id, "https://bandcamp.com/" ++ page.username⟩
          ⟨page.name, page.username⟩ ::
        .collection (items.map itemRelease) ::
        batches.map UEvent.collection := by
  unfold scrapeFan at h
  rcases ht : takeSeq page.sequence page.item_cache with items | m | _
  · simp only [ht] at h
    rcases hcl : collectionsLoop
        (decide (items.length < page.collection_count)) api
      with batches | m | _
    · simp only [hcl] at h
      injection h with h1
      exact ⟨items, batches, rfl, h1.symm⟩
    · simp only [hcl] at h
      cases h
    · simp only [hcl] at h
      cases h
  · simp only [ht] at h
    cases h
  · simp only [ht] at h
    cases h

theorem wireRelease_noPrimary (r : Release) (d : ReleaseDetails)
    (rest : List SEvent) (h : ∀ e ∈ rest, e.isPrimary = false) :
    wireRelease (some (r, d)) rest =
      .ok (rest.map (toRespRelease r), some (r, d)) := by
  induction rest with
  | nil => rfl
  | cons e rest ih =>
    have hrest : ∀ x ∈ rest, SEvent.isPrimary x = false :=
      fun x hx => h x (List.mem_cons_of_mem _ hx)
    cases e with
    | primary r2 d2 =>
      exact absurd (h _ (List.mem_cons_self _ _)) (by simp [SEvent.isPrimary])
    | owningArtist a =>
      show (match wireRelease (some (r, d)) rest with
        | SResult.ok (resps, st2) =>
          SResult.ok (Response.releaseArtist r a :: resps, st2)
        | e => e) = _
      rw [ih hrest]
      rfl
    | fans us =>
      show (match wireRelease (some (r, d)) rest with
        | SResult.ok (resps, st2) => SResult.ok (Response.fans r us :: resps, st2)
        | e => e) = _
      rw [ih hrest]
      rfl

theorem wireUser_noPrimary (u : User) (d : UserDetails)
    (rest : List UEvent) (h : ∀ e ∈ rest, e.isPrimary = false) :
    wireUser (some (u, d)) rest =
      .ok (rest.map (toRespUser u), some (u, d)) := by
  induction rest with
  | nil => rfl
  | cons e rest ih =>
    have hrest : ∀ x ∈ rest, UEvent.isPrimary x = false :=
      fun x hx => h x (List.mem_cons_of_mem _ hx)
    cases e with
    | primary u2 d2 =>
      exact absurd (h _ (List.mem_cons_self _ _)) (by simp [UEvent.isPrimary])
    | collection rs =>
      show (match wireUser (some (u, d)) rest with
        | SResult.ok (resps, st2) => SResult.ok (Response.collection u rs :: resps, st2)
        | e => e) = _
      rw [ih hrest]
      rfl

theorem wireArtist_noPrimary (a : Artist) (d : ArtistDetails)
    (rest : List AEvent) (h : ∀ e ∈ rest, e.isPrimary = false) :
    wireArtist (some (a, d)) rest =
      .ok (rest.map (toRespArtist a), some (a, d)) := by
  induction rest with
  | nil => rfl
  | cons e rest ih =>
    have hrest : ∀ x ∈ rest, AEvent.isPrimary x = false :=
      fun x hx => h x (List.mem_cons_of_mem _ hx)
    cases e with
    | primary a2 d2 =>
      exact absurd (h _ (List.mem_cons_self _ _)) (by simp [AEvent.isPrimary])
    | releases rs =>
      show (match wireArtist (some (a, d)) rest with
        | SResult.ok (resps, st2) => SResult.ok (Response.releases a rs :: resps, st2)
        | e => e) = _
      rw [ih hrest]
      rfl

theorem tags_of_fans_batches (r : Release) (batches : List (List User)) :
    ((batches.map SEvent.fans).map (toRespRelease r)).map Response.tag =
      List.replicate batches.length RTag.fansTag := by
  induction batches with
  | nil => rfl
  | cons b rest ih =>
    simp only [List.map_cons, List.length_cons, List.replicate_succ]
    rw [ih]
    rfl

theorem tags_of_collection_batches (u : User) (batches : List (List Release)) :
    ((batches.map UEvent.collection).map (toRespUser u)).map Response.tag =
      List.replicate batches.length RTag.collectionTag := by
  induction batches with
  | nil => rfl
  | cons b rest ih =>
    simp only [List.map_cons, List.length_cons, List.replicate_succ]
    rw [ih]
    rfl

/-- C3: the responses delivered for a single request always end with the
primary entity response: for a successful Release request the output is
exactly one `ReleaseArtist` response, then only `Fans` batches, then the
primary `Release` response last; for Artist requests the two `Releases`
batches precede the primary `Artist` response; for User requests all
`Collection` batches precede the primary `User` response. -/
theorem primary_response_sent_last :
    (∀ (roundDay : Int → Int) (joinUrl : String → String → String)
        (url : String) (page : ReleasePage) (api : List Thumbs)
        (resps : List Response),
      handleRelease roundDay joinUrl url page api = .ok resps →
        resps.map Response.tag =
          RTag.releaseArtistTag ::
            (List.replicate (resps.length - 2) RTag.fansTag ++
              [RTag.primaryTag])) ∧
    (∀ (joinUrl : String → String → String) (url : String) (page : ArtistPage)
        (resps : List Response),
      handleArtist joinUrl url page = .ok resps →
        resps.map Response.tag =
          [RTag.releasesTag, RTag.releasesTag, RTag.primaryTag]) ∧
    (∀ (page : FanPage) (api : List Collections) (resps : List Response),
      handleUser page api = .ok resps →
        resps.map Response.tag =
          List.replicate (resps.length - 1) RTag.collectionTag ++
            [RTag.primaryTag]) := by
  refine ⟨?_, ?_, ?_⟩
  · intro roundDay joinUrl url page api resps hh
    unfold handleRelease at hh
    rcases hsc : scrapeRelease roundDay joinUrl url page api with ⟨sres, cnt⟩
    rcases sres with evs | m | _
    · simp only [hsc] at hh
      obtain ⟨d, batches, _, hevs⟩ :=
        scrapeRelease_ok_shape roundDay joinUrl url page api evs cnt hsc
      subst hevs
      have hnp : ∀ e ∈ (SEvent.owningArtist ⟨page.band_id,
            match page.discography with
            | some disc => joinUrl url disc
            | none => joinUrl url "/"⟩ ::
          SEvent.fans (page.collectors.reviews.map reviewUser) ::
          SEvent.fans (page.collectors.thumbs.map fanUser) ::
          batches.map SEvent.fans), e.isPrimary = false := by
        intro e he
        simp only [List.mem_cons, List.mem_map] at he
        rcases he with rfl | rfl | rfl | ⟨b, _, rfl⟩
        · rfl
        · rfl
        · rfl
        · rfl
      rw [show wireRelease none (SEvent.primary ⟨page.item_id, url⟩ d ::
            SEvent.owningArtist ⟨page.band_id,
              match page.discography with
              | some disc => joinUrl url disc
              | none => joinUrl url "/"⟩ ::
            SEvent.fans (page.collectors.reviews.map reviewUser) ::
            SEvent.fans (page.collectors.thumbs.map fanUser) ::
            batches.map SEvent.fans) =
          wireRelease (some (⟨page.item_id, url⟩, d))
            (SEvent.owningArtist ⟨page.band_id,
              match page.discography with
              | some disc => joinUrl url disc
              | none => joinUrl url "/"⟩ ::
            SEvent.fans (page.collectors.reviews.map reviewUser) ::
            SEvent.fans (page.collectors.thumbs.map fanUser) ::
            batches.map SEvent.fans) from rfl] at hh
      rw [wireRelease_noPrimary _ _ _ hnp] at hh
      injection hh with h1
      rw [← h1]
      simp only [List.map_append, List.map_cons, List.map_nil,
        List.length_append, List.length_cons, List.length_map,
        List.length_nil, zero_add, toRespRelease, Response.tag]
      rw [tags_of_fans_batches ⟨page.item_id, url⟩ batches]
      rw [show batches.length + 1 + 1 + 1 + 1 - 2 = batches.length + 1 + 1 by omega]
      rw [List.replicate_succ, List.replicate_succ]
      rfl
    · simp only [hsc] at hh
      cases hh
    · simp only [hsc] at hh
      cases hh
  · intro joinUrl url page resps hh
    rw [show handleArtist joinUrl url page =
        SResult.ok [Response.releases ⟨page.band_id, url⟩
            (page.music_grid_items.map fun it =>
              ⟨it.item_id, joinUrl url it.href⟩),
          Response.releases ⟨page.band_id, url⟩
            ((page.client_items.getD []).map fun it =>
              ⟨it.id, joinUrl url it.page_url⟩),
          Response.artist ⟨page.band_id, url⟩ ⟨page.band_name⟩] from rfl] at hh
    injection hh with h1
    rw [← h1]
    rfl
  · intro page api resps hh
    unfold handleUser at hh
    rcases hsc : scrapeFan page api with evs | m | _
    · simp only [hsc] at hh
      obtain ⟨items, batches, _, hevs⟩ := scrapeFan_ok_shape page api evs hsc
      subst hevs
      have hnp : ∀ e ∈ (UEvent.collection (items.map itemRelease) ::
          batches.map UEvent.collection), e.isPrimary = false := by
        intro e he
        simp only [List.mem_cons, List.mem_map] at he
        rcases he with rfl | ⟨b, _, rfl⟩
        · rfl
        · rfl
      rw [show wireUser none (UEvent.primary
            ⟨page.fan_id, "https://bandcamp.com/" ++ page.username⟩
            ⟨page.name, page.username⟩ ::
            UEvent.collection (items.map itemRelease) ::
            batches.map UEvent.collection) =
          wireUser (some (⟨page.fan_id, "https://bandcamp.com/" ++ page.username⟩,
            ⟨page.name, page.username⟩))
            (UEvent.collection (items.map itemRelease) ::
              batches.map UEvent.collection) from rfl] at hh
      rw [wireUser_noPrimary _ _ _ hnp] at hh
      injection hh with h1
      rw [← h1]
      simp only [List.map_append, List.map_cons, List.map_nil,
        List.length_append, List.length_cons, List.length_map,
        List.length_nil, zero_add, toRespUser, Response.tag]
      rw [tags_of_collection_batches
        ⟨page.fan_id, "https://bandcamp.com/" ++ page.username⟩ batches]
      rw [show batches.length + 1 + 1 - 1 = batches.length + 1 by omega]
      rw [List.replicate_succ]
    · simp only [hsc] at hh
      cases hh
    · simp only [hsc] at hh
      cases hh

/-- C3 witness: a concrete release scrape with no thumbs produces one
`ReleaseArtist` response, two (empty) `Fans` batches, then the primary. -/
theorem primary_response_sent_last_witness :
    ([Response.releaseArtist ⟨1, "u"⟩ ⟨2, "u/"⟩,
      Response.fans ⟨1, "u"⟩ [],
      Response.fans ⟨1, "u"⟩ [],
      Response.release ⟨1, "u"⟩
        ⟨.album, "T", "A", none, 60, 5⟩].map Response.tag) =
      RTag.releaseArtistTag ::
        (List.replicate 2 RTag.fansTag ++ [RTag.primaryTag]) := by
  have h := primary_response_sent_last.1 (fun t => t) (fun a b => a ++ b) "u"
    ⟨"a", 1, 2, none, "T", "A", none, some 60, 0, 5, ⟨false, [], []⟩⟩ []
    [Response.releaseArtist ⟨1, "u"⟩ ⟨2, "u/"⟩,
      Response.fans ⟨1, "u"⟩ [],
      Response.fans ⟨1, "u"⟩ [],
      Response.release ⟨1, "u"⟩ ⟨.album, "T", "A", none, 60, 5⟩]
    (by decide)
  exact h

/-- The property C7 asserts of a release callback trace: every invocation
of the primary callback is the last callback invoked. -/
def primaryLast (evs : List SEvent) : Prop :=
  ∀ i : Fin evs.length, (evs.get i).isPrimary = true → (i : Nat) = evs.length - 1

instance (evs : List SEvent) : Decidable (primaryLast evs) := by
  unfold primaryLast
  infer_instance

/-- C7 counterexample: in a successful release scrape the scraper invokes
the primary callback (`on_release`) FIRST, not last — here a concrete
release page yields the callback trace
`[on_release, on_release_artist, on_fans, on_fans]`, whose primary
callback is at position 0 of 4, so claiming the primary callback fires
after all relationship batches is false. (The primary `Response` is still
delivered last: the handler's primary callback only stashes the pair.) -/
theorem callbacks_primary_last_cex :
    (scrapeRelease (fun t => t) (fun a b => a ++ b) "u"
        ⟨"a", 1, 2, none, "T", "A", none, some 60, 0, 5, ⟨false, [], []⟩⟩ []).1 =
      .ok [.primary ⟨1, "u"⟩ ⟨.album, "T", "A", none, 60, 5⟩,
        .owningArtist ⟨2, "u/"⟩, .fans [], .fans []] ∧
    ¬ primaryLast [.primary ⟨1, "u"⟩ ⟨.album, "T", "A", none, 60, 5⟩,
        .owningArtist ⟨2, "u/"⟩, .fans [], .fans []] :=
  ⟨by decide, by decide⟩

theorem isPrimary_fans_batches (batches : List (List User)) :
    (batches.map SEvent.fans).map SEvent.isPrimary =
      List.replicate batches.length false := by
  induction batches with
  | nil => rfl
  | cons b rest ih =>
    simp only [List.map_cons, List.length_cons, List.replicate_succ]
    rw [ih]
    rfl

theorem isPrimary_collection_batches (batches : List (List Release)) :
    (batches.map UEvent.collection).map UEvent.isPrimary =
      List.replicate batches.length false := by
  induction batches with
  | nil => rfl
  | cons b rest ih =>
    simp only [List.map_cons, List.length_cons, List.replicate_succ]
    rw [ih]
    rfl

/-- C7 (amended): for every scrape kind the primary callback is invoked
FIRST, before the owning-artist callback and before every
relationship-batch callback — in a successful callback trace the head is
the primary invocation and no later element is; the primary `Response`
nonetheless reaches the output channel last because the request handler's
primary callback only stashes the entity and the handler sends it after
the scrape returns (see the wire-order theorem for C3). -/
theorem callbacks_primary_first :
    (∀ (roundDay : Int → Int) (joinUrl : String → String → String)
        (url : String) (page : ReleasePage) (api : List Thumbs)
        (evs : List SEvent) (n : Nat),
      scrapeRelease roundDay joinUrl url page api = (.ok evs, n) →
        evs.map SEvent.isPrimary =
          true :: List.replicate (evs.length - 1) false) ∧
    (∀ (joinUrl : String → String → String) (url : String) (page : ArtistPage),
      (scrapeArtist joinUrl url page).map AEvent.isPrimary =
        [true, false, false]) ∧
    (∀ (page : FanPage) (api : List Collections) (evs : List UEvent),
      scrapeFan page api = .ok evs →
        evs.map UEvent.isPrimary =
          true :: List.replicate (evs.length - 1) false) := by
  refine ⟨?_, ?_, ?_⟩
  · intro roundDay joinUrl url page api evs n h
    obtain ⟨d, batches, _, hevs⟩ :=
      scrapeRelease_ok_shape roundDay joinUrl url page api evs n h
    subst hevs
    simp only [List.map_cons, List.length_cons, List.length_map, zero_add,
      SEvent.isPrimary]
    rw [isPrimary_fans_batches batches]
    rw [show batches.length + 1 + 1 + 1 + 1 - 1 = batches.length + 1 + 1 + 1
      by omega]
    rw [List.replicate_succ, List.replicate_succ, List.replicate_succ]
  · intro joinUrl url page
    rfl
  · intro page api evs h
    obtain ⟨items, batches, _, hevs⟩ := scrapeFan_ok_shape page api evs h
    subst hevs
    simp only [List.map_cons, List.length_cons, List.length_map, zero_add,
      UEvent.isPrimary]
    rw [isPrimary_collection_batches batches]
    rw [show batches.length + 1 + 1 - 1 = batches.length + 1 by omega]
    rw [List.replicate_succ]

/-- C7 (amended) witness: the concrete release trace starts with the
primary callback and has no later primary invocation. -/
theorem callbacks_primary_first_witness :
    ([SEvent.primary ⟨1, "u"⟩ ⟨.album, "T", "A", none, 60, 5⟩,
      SEvent.owningArtist ⟨2, "u/"⟩, SEvent.fans [],
      SEvent.fans []].map SEvent.isPrimary) =
      true :: List.replicate 3 false := by
  have h := callbacks_primary_first.1 (fun t => t) (fun a b => a ++ b) "u"
    ⟨"a", 1, 2, none, "T", "A", none, some 60, 0, 5, ⟨false, [], []⟩⟩ []
    [SEvent.primary ⟨1, "u"⟩ ⟨.album, "T", "A", none, 60, 5⟩,
      SEvent.owningArtist ⟨2, "u/"⟩, SEvent.fans [], SEvent.fans []] 0
    (by decide)
  exact h

/-! ## Release parsing edge cases (`scrape_release` lines 293-343 and
`parse_broken_duration` lines 102-128) -/

/-- `parse_broken_duration`: rewrite a malformed leading `P00H` (a
zero-hours prefix form the origin emits) into the standard `PT` form, then
hand the string to the generic ISO-8601 duration parser (`jiff`'s
`SignedDuration` parsing, abstracted as `parse`). The string is modelled
as its character list. -/
def parseBrokenDuration (parse : List Char → Option Int)
    (value : List Char) : Option Int :=
  match value with
  | 'P' :: '0' :: '0' :: 'H' :: rest => parse ('P' :: 'T' :: rest)
  | _ => parse value

/-- Whether a scrape result is a success. -/
def SResult.isOk {α : Type} : SResult α → Bool
  | .ok _ => true
  | _ => false

theorem foldl_add_eq_sum (d : Int) (ds : List Int) :
    ds.foldl (fun a b => a + b) d = d + ds.sum := by
  induction ds generalizing d with
  | nil => simp
  | cons x xs ih =>
    rw [List.foldl_cons, ih, List.sum_cons, add_assoc]

theorem releaseLength_none (page : ReleasePage) (hdur : page.duration = none)
    (htr : page.track = none) : releaseLength page = 0 := by
  simp only [releaseLength, hdur, htr]

theorem releaseLength_tracks (page : ReleasePage) (tl : ItemList)
    (hdur : page.duration = none) (htr : page.track = some tl) :
    releaseLength page = tl.elements.sum := by
  simp only [releaseLength, hdur, htr]
  cases he : tl.elements with
  | nil => simp
  | cons d ds =>
    show ds.foldl (fun a b => a + b) d = (d :: ds).sum
    rw [foldl_add_eq_sum, List.sum_cons]

theorem mkDetails_unknown (roundDay : Int → Int) (page : ReleasePage)
    (ha : page.item_type ≠ "a") (ht : page.item_type ≠ "t") :
    mkDetails roundDay page =
      .error ("unknown release type " ++ page.item_type) := by
  simp only [mkDetails]

/-- C6: release-page parsing edge cases. Type code `a` classifies the
release as an album and `t` as a track; any other code turns the whole
scrape into an extraction error (`unknown release type …`). The release
date falls back to the publish date exactly when the parsed release date
equals the Unix-epoch sentinel, and the resulting date is passed through
the day-granularity rounding. When no top-level duration is present, the
release length is the `reduce(+)` combination of the track durations (zero
when there are no tracks at all). A track duration string starting with
the malformed `P00H` prefix is rewritten to the standard `PT` form before
the generic duration parser runs, and any other string is passed through
untouched. -/
theorem release_parsing_edge_cases :
    (∀ (roundDay : Int → Int) (page : ReleasePage) (d : ReleaseDetails),
      mkDetails roundDay page = .ok d →
        (page.item_type = "a" → d.ty = .album) ∧
        (page.item_type = "t" → d.ty = .track) ∧
        d.released = roundDay
          (if page.release_date = 0 then page.publish_date
            else page.release_date) ∧
        (page.duration = none → page.track = none → d.length = 0) ∧
        (∀ tl, page.duration = none → page.track = some tl →
          d.length = tl.elements.sum)) ∧
    (∀ (roundDay : Int → Int) (joinUrl : String → String → String)
        (url : String) (page : ReleasePage) (api : List Thumbs),
      page.item_type ≠ "a" → page.item_type ≠ "t" →
        (scrapeRelease roundDay joinUrl url page api).1 =
          .error ("unknown release type " ++ page.item_type)) ∧
    (∀ (roundDay : Int → Int) (page : ReleasePage),
      page.item_type = "a" ∨ page.item_type = "t" →
        (mkDetails roundDay page).isOk = true) ∧
    (∀ (parse : List Char → Option Int) (rest : List Char),
      parseBrokenDuration parse ('P' :: '0' :: '0' :: 'H' :: rest) =
        parse ('P' :: 'T' :: rest)) ∧
    (∀ (parse : List Char → Option Int) (c : Char) (cs : List Char),
      c ≠ 'P' → parseBrokenDuration parse (c :: cs) = parse (c :: cs)) := by
  refine ⟨?_, ?_, ?_, ?_, ?_⟩
  · intro roundDay page d h
    simp only [mkDetails] at h
    split at h
    · rename_i heq
      injection h with h1
      subst h1
      refine ⟨fun _ => rfl, fun hty => ?_, rfl, ?_, ?_⟩
      · exact absurd (heq.symm.trans hty) (by decide)
      · intro hdur htr
        exact releaseLength_none page hdur htr
      · intro tl hdur htr
        exact releaseLength_tracks page tl hdur htr
    · rename_i heq
      injection h with h1
      subst h1
      refine ⟨fun hty => ?_, fun _ => rfl, rfl, ?_, ?_⟩
      · exact absurd (heq.symm.trans hty) (by decide)
      · intro hdur htr
        exact releaseLength_none page hdur htr
      · intro tl hdur htr
        exact releaseLength_tracks page tl hdur htr
    · cases h
  · intro roundDay joinUrl url page api ha ht
    unfold scrapeRelease
    rw [mkDetails_unknown roundDay page ha ht]
  · intro roundDay page h
    rcases h with hty | hty
    · simp only [mkDetails, hty]
      rfl
    · simp only [mkDetails, hty]
      rfl
  · intro parse rest
    rfl
  · intro parse c cs hc
    unfold parseBrokenDuration
    split
    · rename_i heq
      injection heq with hc2 _
      exact absurd hc2 hc
    · rfl

/-- C6 witness: an unknown type code `x` aborts a concrete scrape with the
extraction error, and a malformed `P00H4M` duration is parsed as `PT4M`. -/
theorem release_parsing_edge_cases_witness :
    (scrapeRelease (fun t => t) (fun a b => a ++ b) "u"
        ⟨"x", 1, 2, none, "T", "A", none, none, 0, 5, ⟨false, [], []⟩⟩ []).1 =
      .error "unknown release type x" ∧
    parseBrokenDuration
      (fun v => if v = ['P', 'T', '4', 'M'] then some 240 else none)
      ['P', '0', '0', 'H', '4', 'M'] = some 240 := by
  have h := release_parsing_edge_cases
  refine ⟨?_, ?_⟩
  · have h2 := h.2.1 (fun t => t) (fun a b => a ++ b) "u"
      ⟨"x", 1, 2, none, "T", "A", none, none, 0, 5, ⟨false, [], []⟩⟩ []
      (by decide) (by decide)
    rw [h2]
    rfl
  · have h4 := h.2.2.2.1
      (fun v => if v = ['P', 'T', '4', 'M'] then some 240 else none)
      ['4', 'M']
    rw [h4]
    rfl

/-! ## Collectors pagination safety (`scrape_release` lines 380-396) -/

theorem collectLoop_empty_page_panics (good : List Thumbs) :
    ∀ (bad : Thumbs) (rest : List Thumbs),
      (∀ p ∈ good, p.results ≠ [] ∧ p.more_available = true) →
      bad.results = [] →
      (collectLoop true (good ++ bad :: rest)).1 = .panicked := by
  induction good with
  | nil =>
    intro bad rest _ hbad
    simp [collectLoop, hbad]
  | cons p good2 ih =>
    intro bad rest h hbad
    have hp := h p (List.mem_cons_self _ _)
    have hsome : p.results.getLast?.isSome := List.getLast?_isSome.mpr hp.1
    rcases Option.isSome_iff_exists.mp hsome with ⟨f, hf⟩
    have hrec := ih bad rest (fun x hx => h x (List.mem_cons_of_mem _ hx)) hbad
    rw [← hp.2] at hrec
    rcases hcl : collectLoop p.more_available (good2 ++ bad :: rest)
      with ⟨res, n⟩
    rw [hcl] at hrec
    have hres : res = .panicked := hrec
    subst hres
    rw [List.cons_append]
    simp [collectLoop, hf, hcl]

theorem collectLoop_no_panic (pages : List Thumbs)
    (h : ∀ p ∈ pages, p.results ≠ []) :
    ∀ b : Bool, (collectLoop b pages).1 ≠ .panicked := by
  induction pages with
  | nil =>
    intro b
    cases b <;> simp [collectLoop]
  | cons p rest ih =>
    intro b
    cases b with
    | false => simp [collectLoop]
    | true =>
      have hp := h p (List.mem_cons_self _ _)
      have hsome : p.results.getLast?.isSome := List.getLast?_isSome.mpr hp
      rcases Option.isSome_iff_exists.mp hsome with ⟨f, hf⟩
      have hrec := ih (fun x hx => h x (List.mem_cons_of_mem _ hx))
        p.more_available
      rcases hcl : collectLoop p.more_available rest with ⟨res, n⟩
      rw [hcl] at hrec
      rcases res with batches | m | _
      · simp [collectLoop, hf, hcl]
      · simp [collectLoop, hf, hcl]
      · exact absurd rfl hrec

/-- C9: the collectors pagination loop takes its continuation token from
`response.results.last().unwrap()` before anything else: if the loop is
running (a token exists and `more_thumbs_available` held) and any fetched
page carries an empty `results` list, the whole scrape panics — it does
not return an extraction error; conversely, when every fetched page has
at least one result the loop never reaches the panic. -/
theorem collectors_pagination_unwrap_panic :
    (∀ (good : List Thumbs) (bad : Thumbs) (rest : List Thumbs),
      (∀ p ∈ good, p.results ≠ [] ∧ p.more_available = true) →
      bad.results = [] →
        (collectLoop true (good ++ bad :: rest)).1 = .panicked) ∧
    (∀ (pages : List Thumbs) (b : Bool),
      (∀ p ∈ pages, p.results ≠ []) →
        (collectLoop b pages).1 ≠ .panicked) ∧
    (∀ (roundDay : Int → Int) (joinUrl : String → String → String)
        (url : String) (page : ReleasePage) (bad : Thumbs)
        (rest : List Thumbs) (d : ReleaseDetails),
      mkDetails roundDay page = .ok d →
      page.collectors.thumbs ≠ [] →
      page.collectors.more_thumbs_available = true →
      bad.results = [] →
        (scrapeRelease roundDay joinUrl url page (bad :: rest)).1 =
          .panicked) := by
  refine ⟨collectLoop_empty_page_panics, fun pages b h => collectLoop_no_panic pages h b, ?_⟩
  intro roundDay joinUrl url page bad rest d hd hth hmore hbad
  have hsome : page.collectors.thumbs.getLast?.isSome :=
    List.getLast?_isSome.mpr hth
  rcases Option.isSome_iff_exists.mp hsome with ⟨f, hf⟩
  have hcl : collectLoop true (bad :: rest) = (.panicked, 1) := by
    simp [collectLoop, hbad]
  unfold scrapeRelease
  rw [hd, hf, hmore, hcl]

/-- C9 witness: a single empty collectors page panics the loop; a single
nonempty final page does not. -/
theorem collectors_pagination_unwrap_panic_witness :
    (collectLoop true [⟨[], true⟩]).1 = .panicked ∧
    (collectLoop true [⟨[⟨1, "f", "tok"⟩], false⟩]).1 ≠ .panicked := by
  have h := collectors_pagination_unwrap_panic
  refine ⟨?_, ?_⟩
  · have := h.1 [] ⟨[], true⟩ [] (by intro p hp; cases hp) rfl
    exact this
  · exact h.2.1 [⟨[⟨1, "f", "tok"⟩], false⟩] true (by decide)

/-- C10: when the release page's embedded thumbs list is empty there is no
continuation token, so — whatever the scripted collectors API would return
and even when the page reports `more_thumbs_available = true` — the scrape
makes zero collectors API calls and still emits, in order, the primary
callback, the owning artist, the reviewer-fans batch, and the (empty)
embedded-thumbs batch. -/
theorem empty_thumbs_skips_pagination (roundDay : Int → Int)
    (joinUrl : String → String → String) (url : String) (page : ReleasePage)
    (api : List Thumbs) (d : ReleaseDetails)
    (hd : mkDetails roundDay page = .ok d)
    (ht : page.collectors.thumbs = []) :
    scrapeRelease roundDay joinUrl url page api =
      (.ok [.primary ⟨page.item_id, url⟩ d,
        .owningArtist ⟨page.band_id,
          match page.discography with
          | some disc => joinUrl url disc
          | none => joinUrl url "/"⟩,
        .fans (page.collectors.reviews.map reviewUser),
        .fans []], 0) := by
  unfold scrapeRelease
  rw [hd, ht]
  simp only [List.getLast?_nil, List.map_nil]

/-- C10 witness: a concrete release page with no embedded thumbs but
`more_thumbs_available = true` and a pending (never-used) API page. -/
theorem empty_thumbs_skips_pagination_witness :
    scrapeRelease (fun t => t) (fun a b => a ++ b) "u"
        ⟨"t", 7, 8, some "/music", "T2", "B", none, none, 3, 9,
          ⟨true, [⟨5, "rev"⟩], []⟩⟩ [⟨[], true⟩] =
      (.ok [.primary ⟨7, "u"⟩ ⟨.track, "T2", "B", none, 0, 3⟩,
        .owningArtist ⟨8, "u/music"⟩,
        .fans [⟨5, "https://bandcamp.com/rev"⟩],
        .fans []], 0) := by
  have h := empty_thumbs_skips_pagination (fun t => t) (fun a b => a ++ b) "u"
    ⟨"t", 7, 8, some "/music", "T2", "B", none, none, 3, 9,
      ⟨true, [⟨5, "rev"⟩], []⟩⟩ [⟨[], true⟩]
    ⟨.track, "T2", "B", none, 0, 3⟩ (by decide) rfl
  exact h

end BcScraper
